import Mathlib

/-!
Shallow embedding of `scripts/rules_lint.py`, a linter for Windsurf workspace
rule files. The script enumerates every `*.md` file under the rules directory,
reads its text, and applies two checks per file: the content length must not
exceed `MAX_LEN = 6000` characters, and the content must contain a
case-insensitive occurrence of one of the four literal alternatives of
`ACTIVATION_RE`. Each failed check prints one line to stderr and sets the
return code to 1.

The embedding takes the enumerated list of files (path together with decoded
text) as input and returns the list of stderr lines paired with the return
code. Python's `len` on `str` counts code points, matching `String.length` on
the embedded content. The regex `<glob|Always On|Manual|Model Decision` with
`re.I` is an alternation of four literal substrings, so its `search` is
embedded as a case-insensitive substring scan for any of the four.
-/

namespace RulesLint

/-- MAX_LEN constant of the script. -/
def MAX_LEN : Nat := 6000

/-- A rule file as enumerated by `RULES_DIR.rglob("*.md")`: its path (as
printed in diagnostics) and its decoded text content. -/
structure RuleFile where
  path : String
  content : String
deriving DecidableEq, Repr

/-- Character data of a string, lower-cased character by character. Models the
case-insensitivity (`re.I`) of `ACTIVATION_RE`: all four alternatives are
ASCII, so matching case-insensitively is matching the lower-cased pattern
inside the lower-cased text. -/
def lowerData (s : String) : List Char := s.data.map Char.toLower

/-- Substring scan: `containsSub needle hay` is true when `needle` occurs as a
contiguous run inside `hay`. Embeds the substring-search semantics of
`re.search` for a literal pattern: try a match at every start position. -/
def containsSub (needle : List Char) : List Char → Bool
  | [] => needle.isPrefixOf []
  | c :: rest => needle.isPrefixOf (c :: rest) || containsSub needle rest

/-- The four literal alternatives of `ACTIVATION_RE`. -/
def ACTIVATION_ALTS : List String := ["<glob", "Always On", "Manual", "Model Decision"]

/-- Result of `ACTIVATION_RE.search(txt)` being truthy: some alternative of the
pattern occurs, case-insensitively, as a substring of `txt`. -/
def ACTIVATION_search (txt : String) : Bool :=
  ACTIVATION_ALTS.any fun m => containsSub (lowerData m) (lowerData txt)

/-- Stderr line for a failed length check on a file at path `p`, as produced by
the f-string in the script. -/
def lenMsg (p : String) : String := p ++ " exceeds " ++ toString MAX_LEN ++ " chars"

/-- Stderr line for a failed activation-marker check on a file at path `p`. -/
def markerMsg (p : String) : String := p ++ " missing activation marker"

/-- One iteration of the loop body of `lint()`: given the stderr lines so far
and the current `rc`, check the length, then the activation marker; a failed
check appends its line and sets `rc` to 1. -/
def lintStep (acc : List String × Nat) (f : RuleFile) : List String × Nat :=
  let acc1 := if f.content.length > MAX_LEN then (acc.1 ++ [lenMsg f.path], 1) else acc
  if ACTIVATION_search f.content then acc1 else (acc1.1 ++ [markerMsg f.path], 1)

/-- The `lint()` function: `rc` starts at 0, every enumerated file is processed
in order, and the final `rc` is returned. The first component collects the
lines printed to stderr. -/
def lint (files : List RuleFile) : List String × Nat :=
  files.foldl lintStep ([], 0)

/-- A file fails some check: its content is longer than `MAX_LEN` or the
activation search finds nothing. -/
def fileFails (f : RuleFile) : Bool :=
  decide (f.content.length > MAX_LEN) || !ACTIVATION_search f.content

/-- The stderr lines one file contributes: the length line when too long,
then the marker line when no alternative matches. -/
def fileDiags (f : RuleFile) : List String :=
  (if f.content.length > MAX_LEN then [lenMsg f.path] else []) ++
    (if ACTIVATION_search f.content then [] else [markerMsg f.path])

/-- `lint()` in the presence of fallible reads: each enumerated path comes with
the result of `path.read_text("utf8")`, either the decoded text or an
exception. An exception aborts the run at once (nothing catches it), so the
remaining files are not processed and no return code is produced. -/
def lintRun (acc : List String × Nat) :
    List (String × Except String String) → Except String (List String × Nat)
  | [] => Except.ok acc
  | pf :: rest =>
    match pf.2 with
    | Except.error e => Except.error e
    | Except.ok txt => lintRun (lintStep acc (RuleFile.mk pf.1 txt)) rest

/-- A filesystem operation a run can perform. -/
inductive FsOp where
  | readFile (p : String)
  | writeFile (p : String) (c : String)
  | removeFile (p : String)
deriving DecidableEq, Repr

/-- A filesystem state: a partial map from path to content. -/
def FsState := String → Option String

/-- Effect of one operation on the filesystem: a read leaves it unchanged, a
write or a removal updates the path. -/
def applyOp (fs : FsState) : FsOp → FsState
  | FsOp.readFile _ => fs
  | FsOp.writeFile p c => fun q => if q = p then some c else fs q
  | FsOp.removeFile p => fun q => if q = p then none else fs q

/-- Effect of a sequence of operations on the filesystem. -/
def applyOps (fs : FsState) (ops : List FsOp) : FsState := ops.foldl applyOp fs

/-- The filesystem operations one run of `lint()` performs: the loop body
calls `path.read_text` once per enumerated file and otherwise only prints to
stderr; no other filesystem call appears in the script. -/
def lintFsOps (files : List RuleFile) : List FsOp :=
  files.map fun f => FsOp.readFile f.path

/-- Content of the passing-file scenario: a glob marker line followed by one
hundred characters. -/
def c4_content : String := "<glob>**/*.ts</glob>\n" ++ String.mk (List.replicate 100 'a')

/-- Content of the double-violation scenario: 6001 copies of one character,
no marker text. -/
def c5_content : String := String.mk (List.replicate 6001 'x')

/-! ## Helper lemmas -/

theorem containsSub_iff (n : List Char) (h : List Char) :
    containsSub n h = true ↔ n <:+: h := by
  induction h with
  | nil =>
    simp [containsSub, List.isPrefixOf_iff_prefix]
  | cons c rest ih =>
    simp [containsSub, List.isPrefixOf_iff_prefix, ih, List.infix_cons_iff]

theorem ACTIVATION_search_iff (txt : String) :
    ACTIVATION_search txt = true ↔
      ∃ m ∈ ACTIVATION_ALTS, lowerData m <:+: lowerData txt := by
  simp [ACTIVATION_search, containsSub_iff]

theorem length_msgs : (" exceeds " ++ toString MAX_LEN ++ " chars").length = 19 ∧
    (" missing activation marker").length = 26 := by
  constructor <;> rfl

theorem lenMsg_ne_markerMsg (p q : String) : lenMsg p ≠ markerMsg q ∨ p ≠ q := by
  by_cases hpq : p = q
  · subst hpq
    left
    intro hcontra
    have h1 : (lenMsg p).length = (markerMsg p).length := by rw [hcontra]
    have h2 : (lenMsg p).length = p.length + 19 := by
      simp [lenMsg, String.length_append]
      rfl
    have h3 : (markerMsg p).length = p.length + 26 := by
      simp [markerMsg, String.length_append]
      rfl
    omega
  · right; exact hpq

theorem lenMsg_ne_markerMsg_self (p : String) : lenMsg p ≠ markerMsg p := by
  rcases lenMsg_ne_markerMsg p p with h | h
  · exact h
  · exact absurd rfl h

theorem lintStep_eq (acc : List String × Nat) (f : RuleFile) :
    lintStep acc f = (acc.1 ++ fileDiags f, if fileFails f then 1 else acc.2) := by
  by_cases h1 : f.content.length > MAX_LEN <;>
    by_cases h2 : ACTIVATION_search f.content = true <;>
      simp [lintStep, fileDiags, fileFails, h1, h2]

theorem lint_foldl_eq (files : List RuleFile) (acc : List String × Nat) :
    files.foldl lintStep acc =
      (acc.1 ++ files.flatMap fileDiags, if files.any fileFails then 1 else acc.2) := by
  induction files generalizing acc with
  | nil => simp
  | cons f fs ih =>
    rw [List.foldl_cons, ih, lintStep_eq]
    by_cases h1 : fileFails f = true <;> by_cases h2 : fs.any fileFails = true <;>
      simp [h1, h2]

theorem lint_eq (files : List RuleFile) :
    lint files = (files.flatMap fileDiags, if files.any fileFails then 1 else 0) := by
  simpa [lint] using lint_foldl_eq files ([], 0)

theorem fileDiags_eq_nil_iff (f : RuleFile) : fileDiags f = [] ↔ fileFails f = false := by
  by_cases h1 : f.content.length > MAX_LEN <;>
    by_cases h2 : ACTIVATION_search f.content = true <;>
      simp [fileDiags, fileFails, h1, h2]


theorem lint_snd_eq (files : List RuleFile) :
    (lint files).2 = if files.any fileFails then 1 else 0 := by
  rw [lint_eq]

theorem lint_snd_one_of_mem (files : List RuleFile) (f : RuleFile)
    (hmem : f ∈ files) (hf : fileFails f = true) : (lint files).2 = 1 := by
  rw [lint_snd_eq]
  have hany : files.any fileFails = true := List.any_eq_true.mpr ⟨f, hmem, hf⟩
  simp [hany]

theorem c5_content_length : c5_content.length = 6001 := by
  have h : c5_content.length = (List.replicate 6001 'x').length := rfl
  rw [h, List.length_replicate]

theorem ACTIVATION_search_c5 : ACTIVATION_search c5_content = false := by
  have hlow : lowerData c5_content = List.replicate 6001 'x' := by
    have hdata : c5_content.data = List.replicate 6001 'x' := rfl
    rw [lowerData, hdata, List.map_replicate, show Char.toLower 'x' = 'x' from rfl]
  have key : ∀ (a : Char) (l : List Char), a ∈ l → a ≠ 'x' →
      ¬ l <:+: List.replicate 6001 'x' :=
    fun a l ha hne hinf => hne (List.eq_of_mem_replicate (hinf.subset ha))
  rw [← Bool.not_eq_true, ACTIVATION_search_iff]
  push_neg
  intro m hm
  rw [hlow]
  have hm4 : m = "<glob" ∨ m = "Always On" ∨ m = "Manual" ∨ m = "Model Decision" := by
    simpa [ACTIVATION_ALTS] using hm
  rcases hm4 with rfl | rfl | rfl | rfl
  · exact key '<' _ (by decide) (by decide)
  · exact key 'a' _ (by decide) (by decide)
  · exact key 'm' _ (by decide) (by decide)
  · exact key 'm' _ (by decide) (by decide)

/-! ## Claim theorems -/

/-- C1: lint() returns 1 exactly when some enumerated file fails a check and 0
exactly when none does; the stderr lines are the concatenation, in traversal
order, of each file's failing-check diagnostics, and a file contributes lines
exactly when it fails a check. -/
theorem C1_exit_status (files : List RuleFile) :
    ((lint files).2 = 1 ↔ ∃ f ∈ files, fileFails f = true) ∧
    ((lint files).2 = 0 ↔ ∀ f ∈ files, fileFails f = false) ∧
    (lint files).1 = files.flatMap fileDiags ∧
    (∀ f : RuleFile, fileDiags f = [] ↔ fileFails f = false) := by
  refine ⟨?_, ?_, ?_, fileDiags_eq_nil_iff⟩
  · rw [lint_snd_eq]
    by_cases h : files.any fileFails = true
    · simpa [h] using List.any_eq_true.mp h
    · have h' := List.any_eq_false.mp (Bool.not_eq_true _ ▸ h)
      simp only [h, if_false]
      constructor
      · intro h0
        exact absurd h0 (by decide)
      · rintro ⟨f, hf, hff⟩
        exact absurd (h' f hf) (by simp [hff])
  · rw [lint_snd_eq]
    by_cases h : files.any fileFails = true
    · obtain ⟨f, hf, hff⟩ := List.any_eq_true.mp h
      simp only [h, if_true]
      constructor
      · omega
      · intro hall
        exact absurd (hall f hf) (by simp [hff])
    · have heq : files.any fileFails = false := Bool.not_eq_true _ ▸ h
      have h' := List.any_eq_false.mp heq
      rw [if_neg (by simp [heq])]
      constructor
      · intro _
        exact fun f hf => Bool.eq_false_iff.mpr (h' f hf)
      · intro _
        rfl
  · rw [lint_eq]

/-- C2: a file's length diagnostic is among its stderr lines exactly when its
content length exceeds MAX_LEN, and an enumerated file whose content length
exceeds MAX_LEN forces exit status 1. -/
theorem C2_length_check (f : RuleFile) (files : List RuleFile) (hmem : f ∈ files) :
    (lenMsg f.path ∈ fileDiags f ↔ f.content.length > MAX_LEN) ∧
    (f.content.length > MAX_LEN → (lint files).2 = 1) := by
  constructor
  · by_cases h1 : f.content.length > MAX_LEN <;>
      by_cases h2 : ACTIVATION_search f.content = true <;>
        simp [fileDiags, h1, h2, lenMsg_ne_markerMsg_self f.path]
  · intro h1
    exact lint_snd_one_of_mem files f hmem (by simp [fileFails, h1])

theorem C2_length_check_witness :
    (lenMsg "a.md" ∈ fileDiags (RuleFile.mk "a.md" c5_content) ↔
      c5_content.length > MAX_LEN) ∧
    (c5_content.length > MAX_LEN →
      (lint [RuleFile.mk "a.md" c5_content]).2 = 1) :=
  C2_length_check (RuleFile.mk "a.md" c5_content) [RuleFile.mk "a.md" c5_content]
    (List.mem_singleton.mpr rfl)

/-- C3: a file's missing-marker diagnostic is among its stderr lines exactly
when no alternative of the activation pattern occurs case-insensitively as a
substring of its content, and such an enumerated file forces exit status 1. -/
theorem C3_marker_check (f : RuleFile) (files : List RuleFile) (hmem : f ∈ files) :
    (markerMsg f.path ∈ fileDiags f ↔
      ¬ ∃ m ∈ ACTIVATION_ALTS, lowerData m <:+: lowerData f.content) ∧
    ((¬ ∃ m ∈ ACTIVATION_ALTS, lowerData m <:+: lowerData f.content) →
      (lint files).2 = 1) := by
  have hsearch : ACTIVATION_search f.content = false ↔
      ¬ ∃ m ∈ ACTIVATION_ALTS, lowerData m <:+: lowerData f.content := by
    rw [← ACTIVATION_search_iff]
    simp
  constructor
  · rw [← hsearch]
    by_cases h1 : f.content.length > MAX_LEN <;>
      by_cases h2 : ACTIVATION_search f.content = true <;>
        simp [fileDiags, h1, h2, (lenMsg_ne_markerMsg_self f.path).symm]
  · intro hno
    exact lint_snd_one_of_mem files f hmem
      (by simp [fileFails, hsearch.mpr hno])

theorem C3_marker_check_witness :
    (markerMsg "a.md" ∈ fileDiags (RuleFile.mk "a.md" "plain text") ↔
      ¬ ∃ m ∈ ACTIVATION_ALTS, lowerData m <:+: lowerData "plain text") ∧
    ((¬ ∃ m ∈ ACTIVATION_ALTS, lowerData m <:+: lowerData "plain text") →
      (lint [RuleFile.mk "a.md" "plain text"]).2 = 1) :=
  C3_marker_check (RuleFile.mk "a.md" "plain text") [RuleFile.mk "a.md" "plain text"]
    (List.mem_singleton.mpr rfl)

/-- C4: a file whose content length is within MAX_LEN and whose content makes
the activation search succeed contributes no stderr line, and as the only
enumerated file yields exit status 0 with nothing printed. -/
theorem C4_passing_file (f : RuleFile) (h1 : f.content.length <= MAX_LEN)
    (h2 : ACTIVATION_search f.content = true) :
    fileDiags f = [] ∧ lint [f] = ([], 0) := by
  have hnot : ¬ f.content.length > MAX_LEN := by omega
  have hdiags : fileDiags f = [] := by
    simp [fileDiags, hnot, h2]
  refine ⟨hdiags, ?_⟩
  rw [lint_eq]
  simp [hdiags, fileFails, hnot, h2]

theorem C4_passing_file_witness :
    fileDiags (RuleFile.mk ".windsurf/rules/ok.md" c4_content) = [] ∧
    lint [RuleFile.mk ".windsurf/rules/ok.md" c4_content] = ([], 0) :=
  C4_passing_file (RuleFile.mk ".windsurf/rules/ok.md" c4_content)
    (by decide) (by decide)

/-- C5: on the single file whose content is 6001 copies of the character x and
holds no marker text, both checks fail independently: the run prints the
length line and then the missing-marker line for that file and exits with 1. -/
theorem C5_two_violations :
    lint [RuleFile.mk ".windsurf/rules/big.md" c5_content] =
      ([lenMsg ".windsurf/rules/big.md", markerMsg ".windsurf/rules/big.md"], 1) := by
  have hlen : c5_content.length > MAX_LEN := by
    rw [c5_content_length, MAX_LEN]
    omega
  have hfail : fileFails (RuleFile.mk ".windsurf/rules/big.md" c5_content) = true := by
    simp [fileFails, hlen]
  rw [lint_eq]
  simp [fileDiags, hlen, ACTIVATION_search_c5, hfail]

/-- C6: when the enumeration yields no file at all (empty rules directory or a
missing one, over which the traversal yields nothing), the run prints nothing
and returns 0. -/
theorem C6_vacuous_success : lint [] = ([], 0) := rfl

/-- C7: every stderr line of a run is either the length line of an enumerated
file whose content exceeds MAX_LEN, or the missing-marker line of an
enumerated file on which the activation search fails. -/
theorem C7_diag_format (files : List RuleFile) (d : String)
    (hd : d ∈ (lint files).1) :
    ∃ f ∈ files, (d = lenMsg f.path ∧ f.content.length > MAX_LEN) ∨
      (d = markerMsg f.path ∧ ACTIVATION_search f.content = false) := by
  rw [lint_eq] at hd
  obtain ⟨f, hf, hdf⟩ := List.mem_flatMap.mp hd
  refine ⟨f, hf, ?_⟩
  by_cases h1 : f.content.length > MAX_LEN <;>
    by_cases h2 : ACTIVATION_search f.content = true
  · simp [fileDiags, h1, h2] at hdf
    exact Or.inl ⟨hdf, h1⟩
  · simp [fileDiags, h1, h2] at hdf
    rcases hdf with rfl | rfl
    · exact Or.inl ⟨rfl, h1⟩
    · exact Or.inr ⟨rfl, Bool.eq_false_iff.mpr h2⟩
  · simp [fileDiags, h1, h2] at hdf
  · simp [fileDiags, h1, h2] at hdf
    exact Or.inr ⟨hdf, Bool.eq_false_iff.mpr h2⟩

theorem C7_diag_format_witness :
    ∃ f ∈ [RuleFile.mk "a.md" "no tag here"],
      (markerMsg "a.md" = lenMsg f.path ∧ f.content.length > MAX_LEN) ∨
      (markerMsg "a.md" = markerMsg f.path ∧ ACTIVATION_search f.content = false) :=
  C7_diag_format [RuleFile.mk "a.md" "no tag here"] (markerMsg "a.md") (by decide)

/-- C8: when the read of one enumerated file raises (IO or UTF-8 decode
failure), nothing catches the exception: the run aborts with that exception,
whatever the files after it are, and produces no return code. -/
theorem C8_read_failure (pre post : List (String × Except String String))
    (p e : String) (acc : List String × Nat)
    (hpre : ∀ x ∈ pre, ∃ t, x.2 = Except.ok t) :
    lintRun acc (pre ++ (p, Except.error e) :: post) = Except.error e := by
  induction pre generalizing acc with
  | nil => rfl
  | cons x xs ih =>
    obtain ⟨t, ht⟩ := hpre x (List.mem_cons_self x xs)
    rw [List.cons_append]
    simp only [lintRun, ht]
    exact ih _ fun y hy => hpre y (List.mem_cons_of_mem x hy)

theorem C8_read_failure_witness :
    lintRun ([], 0)
      ([("a.md", Except.ok "Manual activation")] ++
        ("b.md", Except.error "decode failure") :: [("c.md", Except.ok "<glob>*</glob>")]) =
      Except.error "decode failure" :=
  C8_read_failure [("a.md", Except.ok "Manual activation")]
    [("c.md", Except.ok "<glob>*</glob>")] "b.md" "decode failure" ([], 0)
    (by
      intro x hx
      rw [List.mem_singleton] at hx
      subst hx
      exact ⟨"Manual activation", rfl⟩)

/-- C9: the filesystem operations of a run are reads only, so the filesystem
after the run is the filesystem before, for every input directory state. -/
theorem C9_no_fs_mutation (files : List RuleFile) (fs : FsState) :
    applyOps fs (lintFsOps files) = fs ∧
    ∀ op ∈ lintFsOps files, ∃ q, op = FsOp.readFile q := by
  constructor
  · induction files generalizing fs with
    | nil => rfl
    | cons f rest ih => exact ih fs
  · intro op hop
    simp only [lintFsOps, List.mem_map] at hop
    obtain ⟨f, _, rfl⟩ := hop
    exact ⟨f.path, rfl⟩

/-- C10: the activation check is a bare substring search: whenever a lowered
alternative occurs anywhere inside the lowered content, even inside a longer
word, the marker check passes; in particular content reading "run this check
manually when needed" or "a log of model decisions over time" passes the
marker check, and the first, being short, yields no diagnostic at all. -/
theorem C10_bare_substring :
    (∀ f : RuleFile, ∀ m ∈ ACTIVATION_ALTS,
      lowerData m <:+: lowerData f.content → markerMsg f.path ∉ fileDiags f) ∧
    ACTIVATION_search "run this check manually when needed" = true ∧
    ACTIVATION_search "a log of model decisions over time" = true ∧
    fileDiags (RuleFile.mk "m.md" "run this check manually when needed") = [] := by
  refine ⟨?_, by decide, by decide, by decide⟩
  intro f m hm hinf
  have h2 : ACTIVATION_search f.content = true :=
    (ACTIVATION_search_iff f.content).mpr ⟨m, hm, hinf⟩
  by_cases h1 : f.content.length > MAX_LEN <;>
    simp [fileDiags, h1, h2, (lenMsg_ne_markerMsg_self f.path).symm]

end RulesLint
